import Mathlib

/-!
Shallow embedding of the bitcask-rs log engine (`src/log.rs`): the record
codec (`Entry`), the in-memory index (`Index`), and the single-file writer
(`Writer`), together with theorems about the claims of the specification.

Bytes are modelled as `Nat` values below 256 and byte sequences as
`List Nat`.  Machine integers (`u64`, `u128`, `usize`) are modelled as `Nat`
with explicit `% 2^64` / `% 2^128` where overflow matters; on a 64-bit
target `usize` has 8 bytes, matching `usize::to_le_bytes` /
`usize::from_le_bytes` in the source.
-/

set_option maxRecDepth 2000

namespace Bitcask

/-- Little-endian encoding of `n` into exactly `w` bytes, as produced by
`to_le_bytes` on a `w`-byte integer. -/
def toLE : Nat → Nat → List Nat
  | 0, _ => []
  | w + 1, n => n % 256 :: toLE w (n / 256)

/-- Little-endian decoding of a byte list, as done by `from_le_bytes`. -/
def leNat : List Nat → Nat
  | [] => 0
  | b :: t => b + 256 * leNat t

theorem toLE_length (w n : Nat) : (toLE w n).length = w := by
  induction w generalizing n with
  | zero => rfl
  | succ w ih => simp [toLE, ih]

theorem leNat_toLE (w n : Nat) : leNat (toLE w n) = n % 256 ^ w := by
  induction w generalizing n with
  | zero => simp [toLE, leNat, Nat.mod_one]
  | succ w ih =>
      have hp : (256 : Nat) ^ (w + 1) = 256 * 256 ^ w := by ring
      rw [toLE, leNat, ih, hp, Nat.mod_mul]

theorem leNat_toLE_of_lt {w n : Nat} (h : n < 256 ^ w) :
    leNat (toLE w n) = n := by
  rw [leNat_toLE, Nat.mod_eq_of_lt h]

/-- The generator polynomial of CRC-64/ECMA-182 (`CRC_64_ECMA_182` in the
`crc` crate): width 64, init 0, no reflection, xorout 0. -/
def crcPoly : Nat := 0x42F0E1EBA9EA3693

/-- One shift step of the MSB-first CRC-64 update: shift left by one bit
and, when bit 63 was set (`c / 2 ^ 63` is odd), fold in the polynomial. -/
def crcStep (c : Nat) : Nat :=
  if c / 2 ^ 63 % 2 = 1 then ((c * 2) % 2 ^ 64) ^^^ crcPoly
  else (c * 2) % 2 ^ 64

/-- Fold one input byte into the CRC state. -/
def crc64Byte (c b : Nat) : Nat :=
  crcStep^[8] (c ^^^ (b % 256) * 2 ^ 56)

/-- CRC-64/ECMA-182 of a byte sequence (init 0, xorout 0), the digest
`CRC.digest()` computes in the source. -/
def crc64 (data : List Nat) : Nat :=
  data.foldl crc64Byte 0

/-- A record of the log (`Entry` in `src/log.rs`): checksum is a `u64`,
active a `bool`, timestamp a `u128`, the sizes `usize`, key and value byte
vectors. -/
structure Entry where
  checksum : Nat
  active : Bool
  timestamp : Nat
  key_size : Nat
  value_size : Nat
  key : List Nat
  value : List Nat
  deriving Repr, DecidableEq

/-- `Entry::calculate_checksum`: digests the active byte, the little-endian
images of timestamp, key_size and value_size, then key and value — the
checksum field itself is not digested.  Streaming `digest.update` calls
amount to the CRC of the concatenation. -/
def Entry.calculate_checksum (e : Entry) : Nat :=
  crc64 ((if e.active then [1] else [0]) ++ toLE 16 e.timestamp ++
    toLE 8 e.key_size ++ toLE 8 e.value_size ++ e.key ++ e.value)

/-- `Entry::new`: sizes are taken from the actual key/value lengths, the
record starts active, and the checksum is computed over the other fields.
The clock reading (`get_micros_since_epoch`) is passed in as `ts`. -/
def Entry.new (key value : List Nat) (ts : Nat) : Entry :=
  let e0 : Entry :=
    { checksum := 0, active := true, timestamp := ts,
      key_size := key.length, value_size := value.length,
      key := key, value := value }
  { e0 with checksum := e0.calculate_checksum }

/-- `Entry::as_bytes`: checksum (8 bytes LE), active flag (1 byte),
timestamp (16 bytes LE), key_size (8 bytes LE), value_size (8 bytes LE),
then the raw key and value bytes. -/
def Entry.as_bytes (e : Entry) : List Nat :=
  toLE 8 e.checksum ++ (if e.active then [1] else [0]) ++
    toLE 16 e.timestamp ++ toLE 8 e.key_size ++ toLE 8 e.value_size ++
    e.key ++ e.value

/-- `Entry::mark_inactive`: flips `active` to false and nothing else. -/
def Entry.mark_inactive (e : Entry) : Entry :=
  { e with active := false }

/-- `Entry::from_reader`, reading from an in-memory byte stream.  Each
`file.read(&mut buf[0..n])` returns `min n remaining` bytes; the source
ignores that count, so a short read leaves the tail of the 16-byte scratch
buffer (or of the zero-resized key/value vectors) at its previous
contents.  The only `Err` path in the source is a propagated OS I/O error
— end-of-file is not an error — so on a byte stream decoding always
produces an `Entry`.  Returns the decoded entry and the unread remainder
of the stream. -/
def from_readerS (input : List Nat) : Entry × List Nat :=
  let buf0 : List Nat := List.replicate 16 0
  let g1 := input.take 8
  let buf1 := g1 ++ buf0.drop g1.length
  let s1 := input.drop 8
  let checksum := leNat (buf1.take 8)
  let g2 := s1.take 1
  let buf2 := g2 ++ buf1.drop g2.length
  let s2 := s1.drop 1
  let active := buf2.headD 0 == 1
  let g3 := s2.take 16
  let buf3 := g3 ++ buf2.drop g3.length
  let s3 := s2.drop 16
  let timestamp := leNat (buf3.take 16)
  let g4 := s3.take 8
  let buf4 := g4 ++ buf3.drop g4.length
  let s4 := s3.drop 8
  let key_size := leNat (buf4.take 8)
  let g5 := s4.take 8
  let buf5 := g5 ++ buf4.drop g5.length
  let s5 := s4.drop 8
  let value_size := leNat (buf5.take 8)
  let gk := s5.take key_size
  let key := gk ++ List.replicate (key_size - gk.length) 0
  let s6 := s5.drop key_size
  let gv := s6.take value_size
  let value := gv ++ List.replicate (value_size - gv.length) 0
  let s7 := s6.drop value_size
  (⟨checksum, active, timestamp, key_size, value_size, key, value⟩, s7)

/-- The decoded record of `Entry::from_reader`. -/
def from_reader (input : List Nat) : Entry :=
  (from_readerS input).1

/-- `IndexValue` in `src/log.rs`: a seek-only pointer into the log. -/
structure IndexValue where
  timestamp : Nat
  file_id : Nat
  offset : Nat
  size : Nat
  deriving Repr, DecidableEq

/-- The in-memory index, a `HashMap<Vec<u8>, IndexValue>` in the source,
modelled extensionally as an association list without duplicate keys. -/
def Index := List (List Nat × IndexValue)

instance : DecidableEq Index := by
  unfold Index
  infer_instance

/-- `Index::new`: the empty map. -/
def Index.new : Index := []

/-- `Index::update` (`HashMap::insert`): inserts or replaces the mapping
for `key` and returns the displaced value, if any. -/
def Index.update : Index → List Nat → IndexValue → Option IndexValue × Index
  | [], key, v => (none, [(key, v)])
  | (k', v') :: rest, key, v =>
      if k' = key then (some v', (key, v) :: rest)
      else
        let r := Index.update rest key v
        (r.1, (k', v') :: r.2)

/-- `Index::lookup`: the stored value, or `IndexKeyNotFoundError` carrying
the key. -/
def Index.lookup : Index → List Nat → Except (List Nat) IndexValue
  | [], key => .error key
  | (k', v') :: rest, key =>
      if k' = key then .ok v' else Index.lookup rest key

/-- Overwrite the bytes of `file` starting at `off` with `data`,
zero-filling any gap between the old end of file and `off` (POSIX
seek-past-end semantics), as `seek` + `write_all` do. -/
def writeAt (file : List Nat) (off : Nat) (data : List Nat) : List Nat :=
  file.take off ++ List.replicate (off - file.length) 0 ++ data ++
    file.drop (off + data.length)

/-- The `Writer` of `src/log.rs`: the index, the log file's bytes, and the
`offset` cursor for the next append.  The OS file position is not part of
the state: every file access in the source is preceded by an absolute
seek, so no position carries across operations. -/
structure Writer where
  index : Index
  file : List Nat
  offset : Nat
  deriving DecidableEq

/-- `Writer::new`: the file is opened with `truncate(true)`, so the state
starts with an empty index, an empty file, and offset 0. -/
def Writer.new : Writer := ⟨Index.new, [], 0⟩

/-- `Writer::insert`.  `now` is the clock reading used for the new
`IndexValue`.  In the supersede branch the source seeks to the stale
record's offset, decodes it, flips its active flag, rewrites it in place
(seeking back by the re-encoded length from the position the decode left
the file at), seeks to the end of file, records the new location in the
index, appends the new record, and sets `offset` to the position the
append started at.  In the new-key branch it seeks to `offset`, records
the location, writes, and advances `offset` by the encoded length. -/
def Writer.insert (w : Writer) (e : Entry) (now : Nat) : Writer :=
  match Index.lookup w.index e.key with
  | .ok v =>
      let stream := w.file.drop v.offset
      let fr := from_readerS stream
      let found := fr.1.mark_inactive
      let consumed := stream.length - fr.2.length
      let found_data_size := found.as_bytes.length
      let file1 := writeAt w.file (v.offset + consumed - found_data_size) found.as_bytes
      let current_offset := file1.length
      let data := e.as_bytes
      let index1 := (Index.update w.index e.key ⟨now, 0, current_offset, data.length⟩).2
      let file2 := writeAt file1 current_offset data
      ⟨index1, file2, current_offset⟩
  | .error _ =>
      let data := e.as_bytes
      let index1 := (Index.update w.index e.key ⟨now, 0, w.offset, data.length⟩).2
      let file1 := writeAt w.file w.offset data
      ⟨index1, file1, w.offset + data.length⟩

/-- Error type of `Writer::get` (the boxed `IndexKeyNotFoundError`). -/
inductive GetErr where
  | keyNotFound (key : List Nat)
  deriving Repr, DecidableEq

/-- `Writer::get`: resolve the key in the index, seek to the stored
offset, decode one record.  Besides the result, the model returns the
writer state the operation leaves behind (the source mutates neither the
index, nor the file, nor the cursor) and the number of file bytes read;
in the not-found branch the source returns before any seek or read. -/
def Writer.get (w : Writer) (key : List Nat) : Except GetErr Entry × Writer × Nat :=
  match Index.lookup w.index key with
  | .error k => (.error (.keyNotFound k), w, 0)
  | .ok v =>
      let stream := w.file.drop v.offset
      let fr := from_readerS stream
      (.ok fr.1, w, stream.length - fr.2.length)

theorem crcStep_lt (c : Nat) : crcStep c < 2 ^ 64 := by
  unfold crcStep
  split
  · exact Nat.xor_lt_two_pow (Nat.mod_lt _ (by norm_num)) (by norm_num [crcPoly])
  · exact Nat.mod_lt _ (by norm_num)

theorem crc64Byte_lt (c b : Nat) : crc64Byte c b < 2 ^ 64 := by
  unfold crc64Byte
  rw [Function.iterate_succ_apply' crcStep 7]
  exact crcStep_lt _

theorem crc64_lt (data : List Nat) : crc64 data < 2 ^ 64 := by
  unfold crc64
  have h : ∀ l c, c < 2 ^ 64 → List.foldl crc64Byte c l < 2 ^ 64 := by
    intro l
    induction l with
    | nil => intro c hc; simpa using hc
    | cons b t ih => intro c _; exact ih _ (crc64Byte_lt c b)
  exact h data 0 (by norm_num)

theorem Entry.calculate_checksum_lt (e : Entry) : e.calculate_checksum < 2 ^ 64 :=
  crc64_lt _

@[simp] theorem Entry.new_checksum (k v : List Nat) (t : Nat) :
    (Entry.new k v t).checksum =
      Entry.calculate_checksum ⟨0, true, t, k.length, v.length, k, v⟩ := by
  simp only [Entry.new]

@[simp] theorem Entry.new_active (k v : List Nat) (t : Nat) :
    (Entry.new k v t).active = true := rfl

@[simp] theorem Entry.new_timestamp (k v : List Nat) (t : Nat) :
    (Entry.new k v t).timestamp = t := rfl

@[simp] theorem Entry.new_key_size (k v : List Nat) (t : Nat) :
    (Entry.new k v t).key_size = k.length := rfl

@[simp] theorem Entry.new_value_size (k v : List Nat) (t : Nat) :
    (Entry.new k v t).value_size = v.length := rfl

@[simp] theorem Entry.new_key (k v : List Nat) (t : Nat) :
    (Entry.new k v t).key = k := rfl

@[simp] theorem Entry.new_value (k v : List Nat) (t : Nat) :
    (Entry.new k v t).value = v := rfl

@[simp] theorem Entry.mark_inactive_active (e : Entry) :
    e.mark_inactive.active = false := rfl

@[simp] theorem Entry.mark_inactive_checksum (e : Entry) :
    e.mark_inactive.checksum = e.checksum := rfl

@[simp] theorem Entry.mark_inactive_timestamp (e : Entry) :
    e.mark_inactive.timestamp = e.timestamp := rfl

@[simp] theorem Entry.mark_inactive_key_size (e : Entry) :
    e.mark_inactive.key_size = e.key_size := rfl

@[simp] theorem Entry.mark_inactive_value_size (e : Entry) :
    e.mark_inactive.value_size = e.value_size := rfl

@[simp] theorem Entry.mark_inactive_key (e : Entry) :
    e.mark_inactive.key = e.key := rfl

@[simp] theorem Entry.mark_inactive_value (e : Entry) :
    e.mark_inactive.value = e.value := rfl

theorem Entry.as_bytes_length (e : Entry) :
    e.as_bytes.length = 41 + e.key.length + e.value.length := by
  cases e with
  | mk c a t ks vs k v =>
      cases a <;> simp [Entry.as_bytes, toLE_length] <;> omega

/-- Decoding an encoded well-formed record from the head of a stream
reproduces the record and leaves exactly the trailing bytes unread. -/
theorem from_readerS_spec (e : Entry)
    (hk : e.key_size = e.key.length) (hv : e.value_size = e.value.length)
    (hc : e.checksum < 2 ^ 64) (ht : e.timestamp < 2 ^ 128)
    (hks : e.key_size < 2 ^ 64) (hvs : e.value_size < 2 ^ 64)
    (rest : List Nat) :
    from_readerS (e.as_bytes ++ rest) = (e, rest) := by
  obtain ⟨c, a, t, ks, vs, k, v⟩ := e
  simp only at hk hv hc ht hks hvs
  subst hk
  subst hv
  have h64 : (256 : Nat) ^ 8 = 2 ^ 64 := by norm_num
  have h128 : (256 : Nat) ^ 16 = 2 ^ 128 := by norm_num
  have hc' : c < 256 ^ 8 := by rw [h64]; exact hc
  have ht' : t < 256 ^ 16 := by rw [h128]; exact ht
  have hks' : k.length < 256 ^ 8 := by rw [h64]; exact hks
  have hvs' : v.length < 256 ^ 8 := by rw [h64]; exact hvs
  cases a <;>
    simp [from_readerS, Entry.as_bytes, List.take_left', List.drop_left',
      toLE_length, leNat_toLE_of_lt hc', leNat_toLE_of_lt ht',
      leNat_toLE_of_lt hks', leNat_toLE_of_lt hvs', List.drop_append,
      List.append_assoc]

/-- Round trip with no trailing bytes. -/
theorem from_readerS_spec_nil (e : Entry)
    (hk : e.key_size = e.key.length) (hv : e.value_size = e.value.length)
    (hc : e.checksum < 2 ^ 64) (ht : e.timestamp < 2 ^ 128)
    (hks : e.key_size < 2 ^ 64) (hvs : e.value_size < 2 ^ 64) :
    from_readerS e.as_bytes = (e, []) := by
  have h := from_readerS_spec e hk hv hc ht hks hvs []
  rwa [List.append_nil] at h

theorem Index.lookup_new (k : List Nat) : Index.new.lookup k = .error k := rfl

theorem Index.lookup_update_self (i : Index) (k : List Nat) (v : IndexValue) :
    (i.update k v).2.lookup k = .ok v := by
  induction i with
  | nil => simp [Index.update, Index.lookup]
  | cons p rest ih =>
      obtain ⟨k', v'⟩ := p
      by_cases h : k' = k <;> simp [Index.update, Index.lookup, h, ih]

theorem Index.lookup_update_ne (i : Index) (k : List Nat) (v : IndexValue)
    (k2 : List Nat) (h : k2 ≠ k) :
    (i.update k v).2.lookup k2 = i.lookup k2 := by
  have hkk2 : k ≠ k2 := fun he => h he.symm
  induction i with
  | nil => simp [Index.update, Index.lookup, hkk2]
  | cons p rest ih =>
      obtain ⟨k', v'⟩ := p
      by_cases h1 : k' = k
      · subst h1
        simp [Index.update, Index.lookup, hkk2]
      · by_cases h2 : k' = k2 <;>
          simp [Index.update, Index.lookup, h, h1, h2, ih]

theorem Index.update_fst_error (i : Index) (k : List Nat) (v : IndexValue)
    (h : i.lookup k = .error k) : (i.update k v).1 = none := by
  induction i with
  | nil => simp [Index.update]
  | cons p rest ih =>
      obtain ⟨k', v'⟩ := p
      by_cases h1 : k' = k
      · simp [Index.lookup, h1] at h
      · simp [Index.lookup, h1] at h
        simp [Index.update, h1, ih h]

theorem Index.update_fst_ok (i : Index) (k : List Nat) (v x : IndexValue)
    (h : i.lookup k = .ok x) : (i.update k v).1 = some x := by
  induction i with
  | nil => simp [Index.lookup] at h
  | cons p rest ih =>
      obtain ⟨k', v'⟩ := p
      by_cases h1 : k' = k
      · simp [Index.lookup, h1] at h
        simp [Index.update, h1, h]
      · simp [Index.lookup, h1] at h
        simp [Index.update, h1, ih h]

theorem writeAt_drop (f : List Nat) (off : Nat) (d : List Nat) :
    (writeAt f off d).drop off = d ++ f.drop (off + d.length) := by
  have h : (f.take off ++ List.replicate (off - f.length) 0).length = off := by
    simp [List.length_take, List.length_replicate]
    omega
  calc (writeAt f off d).drop off
      = ((f.take off ++ List.replicate (off - f.length) 0) ++
          (d ++ f.drop (off + d.length))).drop off := by
        simp [writeAt, List.append_assoc]
    _ = d ++ f.drop (off + d.length) := List.drop_left' h

theorem writeAt_append (f d : List Nat) : writeAt f f.length d = f ++ d := by
  simp [writeAt, List.drop_eq_nil_of_le (Nat.le_add_right f.length d.length)]

theorem writeAt_covering (f d : List Nat) (h : f.length ≤ d.length) :
    writeAt f 0 d = d := by
  simp [writeAt, List.drop_eq_nil_of_le h]

/-- A successful `insert` followed by `get` on the same key returns exactly
the inserted record, from any writer state and in both branches of
`insert`. -/
theorem insert_get_spec (w : Writer) (e : Entry) (now : Nat)
    (hk : e.key_size = e.key.length) (hv : e.value_size = e.value.length)
    (hc : e.checksum < 2 ^ 64) (ht : e.timestamp < 2 ^ 128)
    (hks : e.key_size < 2 ^ 64) (hvs : e.value_size < 2 ^ 64) :
    ((w.insert e now).get e.key).1 = .ok e := by
  cases hl : Index.lookup w.index e.key with
  | error k' =>
      simp only [Writer.insert, hl]
      simp [Writer.get, Index.lookup_update_self, writeAt_drop,
        from_readerS_spec e hk hv hc ht hks hvs]
  | ok iv =>
      simp only [Writer.insert, hl]
      simp [Writer.get, Index.lookup_update_self, writeAt_append,
        List.drop_left, from_readerS_spec_nil e hk hv hc ht hks hvs]

theorem Entry.new_checksum_lt (k v : List Nat) (t : Nat) :
    (Entry.new k v t).checksum < 2 ^ 64 := by
  rw [Entry.new_checksum]
  exact Entry.calculate_checksum_lt _

/-- Round trip for a freshly constructed record. -/
theorem from_readerS_new (k v : List Nat) (t : Nat) (ht : t < 2 ^ 128)
    (hk : k.length < 2 ^ 64) (hv : v.length < 2 ^ 64) (rest : List Nat) :
    from_readerS ((Entry.new k v t).as_bytes ++ rest) = (Entry.new k v t, rest) :=
  from_readerS_spec _ (by simp) (by simp) (Entry.new_checksum_lt k v t)
    (by simpa using ht) (by simpa using hk) (by simpa using hv) rest

/-- Round trip for a freshly constructed record that was tombstoned. -/
theorem from_readerS_new_inactive (k v : List Nat) (t : Nat) (ht : t < 2 ^ 128)
    (hk : k.length < 2 ^ 64) (hv : v.length < 2 ^ 64) (rest : List Nat) :
    from_readerS ((Entry.new k v t).mark_inactive.as_bytes ++ rest) =
      ((Entry.new k v t).mark_inactive, rest) :=
  from_readerS_spec _ (by simp) (by simp)
    (by rw [Entry.mark_inactive_checksum]; exact Entry.new_checksum_lt k v t)
    (by simpa using ht) (by simpa using hk) (by simpa using hv) rest

/-- The new-key branch of `insert`, written out. -/
theorem Writer.insert_eq_fresh (w : Writer) (e : Entry) (now : Nat)
    (h : w.index.lookup e.key = .error e.key) :
    w.insert e now =
      ⟨(w.index.update e.key ⟨now, 0, w.offset, e.as_bytes.length⟩).2,
        writeAt w.file w.offset e.as_bytes, w.offset + e.as_bytes.length⟩ := by
  simp only [Writer.insert, h]

/-- The supersede branch of `insert`, written out. -/
theorem Writer.insert_eq_found (w : Writer) (e : Entry) (now : Nat)
    (iv : IndexValue) (h : w.index.lookup e.key = .ok iv) :
    w.insert e now =
      (let stream := w.file.drop iv.offset
       let fr := from_readerS stream
       let found := fr.1.mark_inactive
       let consumed := stream.length - fr.2.length
       let file1 :=
         writeAt w.file (iv.offset + consumed - found.as_bytes.length)
           found.as_bytes
       ⟨(w.index.update e.key ⟨now, 0, file1.length, e.as_bytes.length⟩).2,
        writeAt file1 file1.length e.as_bytes, file1.length⟩) := by
  simp only [Writer.insert, h]

/-- The writer state after inserting `(k, v1)` and then `(k, v2)` into a
fresh writer: the index maps `k` to the second record's location, the file
holds the tombstoned first record followed by the second record, and the
cursor is left at the start of the second record. -/
theorem writer_two_inserts (k v1 v2 : List Nat) (t1 t2 n1 n2 : Nat)
    (ht1 : t1 < 2 ^ 128) (hk : k.length < 2 ^ 64) (hv1 : v1.length < 2 ^ 64) :
    (Writer.new.insert (Entry.new k v1 t1) n1).insert (Entry.new k v2 t2) n2 =
      ⟨[(k, ⟨n2, 0, (Entry.new k v1 t1).as_bytes.length,
          (Entry.new k v2 t2).as_bytes.length⟩)],
        (Entry.new k v1 t1).mark_inactive.as_bytes ++ (Entry.new k v2 t2).as_bytes,
        (Entry.new k v1 t1).as_bytes.length⟩ := by
  have e1wf : from_readerS (Entry.new k v1 t1).as_bytes =
      (Entry.new k v1 t1, []) := by
    have h := from_readerS_new k v1 t1 ht1 hk hv1 []
    rwa [List.append_nil] at h
  have hfresh : Writer.new.index.lookup (Entry.new k v1 t1).key =
      .error (Entry.new k v1 t1).key := by
    simp [Writer.new, Index.new, Index.lookup]
  have hw1 := Writer.insert_eq_fresh Writer.new (Entry.new k v1 t1) n1 hfresh
  rw [hw1]
  have hfound : (⟨(Writer.new.index.update (Entry.new k v1 t1).key
        ⟨n1, 0, Writer.new.offset, (Entry.new k v1 t1).as_bytes.length⟩).2,
      writeAt Writer.new.file Writer.new.offset (Entry.new k v1 t1).as_bytes,
      Writer.new.offset + (Entry.new k v1 t1).as_bytes.length⟩ : Writer).index.lookup
        (Entry.new k v2 t2).key =
      .ok ⟨n1, 0, Writer.new.offset, (Entry.new k v1 t1).as_bytes.length⟩ := by
    simp [Index.lookup_update_self]
  rw [Writer.insert_eq_found _ _ n2 _ hfound]
  have htomb_len : (Entry.new k v1 t1).mark_inactive.as_bytes.length =
      (Entry.new k v1 t1).as_bytes.length := by
    simp [Entry.as_bytes_length]
  have hcat : writeAt (Entry.new k v1 t1).mark_inactive.as_bytes
      (Entry.new k v1 t1).as_bytes.length (Entry.new k v2 t2).as_bytes =
      (Entry.new k v1 t1).mark_inactive.as_bytes ++
        (Entry.new k v2 t2).as_bytes := by
    rw [← htomb_len]
    exact writeAt_append _ _
  have hcov : writeAt (Entry.new k v1 t1).as_bytes 0
      (Entry.new k v1 t1).mark_inactive.as_bytes =
      (Entry.new k v1 t1).mark_inactive.as_bytes :=
    writeAt_covering _ _ (le_of_eq htomb_len.symm)
  have hw0 : writeAt ([] : List Nat) 0 (Entry.new k v1 t1).as_bytes =
      (Entry.new k v1 t1).as_bytes := by
    simp [writeAt]
  simp [Writer.new, Index.new, Index.update, hw0, e1wf, htomb_len, hcov, hcat]

/-- Claim C1: for every key and value (arbitrary byte sequences), a
successful `insert(key, value)` followed by `get(key)`, with no
intervening operations, returns a record whose value equals the inserted
value and whose active flag is true.  Proved from an arbitrary writer
state, covering both branches of `insert`. -/
theorem claim1_insert_then_get (w : Writer) (k v : List Nat) (t now : Nat)
    (ht : t < 2 ^ 128) (hk : k.length < 2 ^ 64) (hv : v.length < 2 ^ 64) :
    ∃ r : Entry, ((w.insert (Entry.new k v t) now).get k).1 = .ok r ∧
      r.value = v ∧ r.active = true := by
  refine ⟨Entry.new k v t, ?_, by simp, by simp⟩
  have h := insert_get_spec w (Entry.new k v t) now (by simp) (by simp)
    (Entry.new_checksum_lt k v t) (by simpa using ht) (by simpa using hk)
    (by simpa using hv)
  simpa using h

theorem claim1_witness :
    (0 : Nat) < 2 ^ 128 ∧ ([1, 2] : List Nat).length < 2 ^ 64 ∧
      ([3] : List Nat).length < 2 ^ 64 ∧
      ∃ r : Entry,
        ((Writer.new.insert (Entry.new [1, 2] [3] 0) 0).get [1, 2]).1 = .ok r ∧
          r.value = [3] ∧ r.active = true :=
  ⟨by decide, by decide, by decide,
    claim1_insert_then_get Writer.new [1, 2] [3] 0 0 (by decide) (by decide)
      (by decide)⟩

/-- Claim C2: encoding any well-formed record with `as_bytes` and decoding
the resulting bytes with `from_reader` yields a record with identical
checksum, active, timestamp, key_size, value_size, key and value fields
(the fields are well-formed exactly when the sizes match the actual
key/value lengths and each numeric field fits its machine width). -/
theorem claim2_roundtrip (e : Entry)
    (hk : e.key_size = e.key.length) (hv : e.value_size = e.value.length)
    (hc : e.checksum < 2 ^ 64) (ht : e.timestamp < 2 ^ 128)
    (hks : e.key_size < 2 ^ 64) (hvs : e.value_size < 2 ^ 64) :
    from_reader e.as_bytes = e := by
  unfold from_reader
  rw [from_readerS_spec_nil e hk hv hc ht hks hvs]

theorem claim2_witness :
    (⟨5, false, 3, 0, 2, [], [9, 250]⟩ : Entry).key_size =
        (⟨5, false, 3, 0, 2, [], [9, 250]⟩ : Entry).key.length ∧
      from_reader (⟨5, false, 3, 0, 2, [], [9, 250]⟩ : Entry).as_bytes =
        (⟨5, false, 3, 0, 2, [], [9, 250]⟩ : Entry) :=
  ⟨by decide,
    claim2_roundtrip ⟨5, false, 3, 0, 2, [], [9, 250]⟩ (by decide) (by decide)
      (by decide) (by decide) (by decide) (by decide)⟩

/-- Claim C3, divergence: after a supersede insert the cursor is NOT
advanced by the encoded length of the appended record and does NOT equal
the logical end of file.  Inserting `([0], [1])` then `([0], [2])` into a
fresh writer leaves the cursor at 43 — the offset the second record was
appended at — while the file is 86 bytes long (each encoded record is 43
bytes). -/
theorem claim3_cursor_divergence :
    (Writer.new.insert (Entry.new [0] [1] 0) 0).offset = 43 ∧
    (Entry.new [0] [2] 0).as_bytes.length = 43 ∧
    ((Writer.new.insert (Entry.new [0] [1] 0) 0).insert
      (Entry.new [0] [2] 0) 0).offset = 43 ∧
    ((Writer.new.insert (Entry.new [0] [1] 0) 0).insert
      (Entry.new [0] [2] 0) 0).file.length = 86 := by
  decide

/-- Claim C4, divergence: decoding an input whose header declares
`key_size = 2` and `value_size = 2` but which has only one byte after the
header does not fail; it returns a successfully decoded record whose key
and value are silently zero-padded to the declared sizes. -/
theorem claim4_truncated_decode :
    from_readerS (toLE 8 0 ++ [1] ++ toLE 16 0 ++ toLE 8 2 ++ toLE 8 2 ++ [7]) =
      (⟨0, true, 0, 2, 2, [7, 0], [0, 0]⟩, []) := by
  decide

/-- Claim C5: after `insert(k, v1)` then `insert(k, v2)` on a fresh
writer, the record stored at the first record's original offset (0) has
`active = false`, and `get k` returns a record whose value is `v2`. -/
theorem claim5_supersede (k v1 v2 : List Nat) (t1 t2 n1 n2 : Nat)
    (ht1 : t1 < 2 ^ 128) (ht2 : t2 < 2 ^ 128) (hk : k.length < 2 ^ 64)
    (hv1 : v1.length < 2 ^ 64) (hv2 : v2.length < 2 ^ 64) :
    (from_reader ((Writer.new.insert (Entry.new k v1 t1) n1).insert
        (Entry.new k v2 t2) n2).file).active = false ∧
    ∃ r : Entry, (((Writer.new.insert (Entry.new k v1 t1) n1).insert
        (Entry.new k v2 t2) n2).get k).1 = .ok r ∧ r.value = v2 := by
  rw [writer_two_inserts k v1 v2 t1 t2 n1 n2 ht1 hk hv1]
  have htomb_len : (Entry.new k v1 t1).mark_inactive.as_bytes.length =
      (Entry.new k v1 t1).as_bytes.length := by
    simp [Entry.as_bytes_length]
  constructor
  · unfold from_reader
    rw [from_readerS_new_inactive k v1 t1 ht1 hk hv1 _]
    simp
  · refine ⟨Entry.new k v2 t2, ?_, by simp⟩
    have e2nil : from_readerS (Entry.new k v2 t2).as_bytes =
        (Entry.new k v2 t2, []) := by
      have h := from_readerS_new k v2 t2 ht2 hk hv2 []
      rwa [List.append_nil] at h
    simp [Writer.get, Index.lookup, ← htomb_len, List.drop_left, e2nil]

theorem claim5_witness :
    (0 : Nat) < 2 ^ 128 ∧ ([7] : List Nat).length < 2 ^ 64 ∧
      (from_reader ((Writer.new.insert (Entry.new [7] [1] 0) 0).insert
          (Entry.new [7] [2, 3] 0) 0).file).active = false ∧
      ∃ r : Entry, (((Writer.new.insert (Entry.new [7] [1] 0) 0).insert
          (Entry.new [7] [2, 3] 0) 0).get [7]).1 = .ok r ∧ r.value = [2, 3] :=
  ⟨by decide, by decide,
    claim5_supersede [7] [1] [2, 3] 0 0 0 0 (by decide) (by decide) (by decide)
      (by decide) (by decide)⟩

/-- Claim C6: lookup on a key never updated (the fresh index, and any
index for keys other than the updated one) fails with the key-not-found
error; after `update(k, v1)` then `update(k, v2)`, `lookup k` returns
`v2`, the second update returns `v1` as the displaced value, the first
update on a fresh key returns none, and update leaves every other key's
mapping unchanged. -/
theorem claim6_index (i : Index) (k k2 : List Nat) (v1 v2 : IndexValue)
    (hne : k2 ≠ k) :
    Index.new.lookup k = .error k ∧
    ((i.update k v1).2.update k v2).2.lookup k = .ok v2 ∧
    ((i.update k v1).2.update k v2).1 = some v1 ∧
    (i.lookup k = .error k → (i.update k v1).1 = none) ∧
    (i.update k v1).2.lookup k2 = i.lookup k2 := by
  refine ⟨Index.lookup_new k, Index.lookup_update_self _ _ _, ?_, ?_,
    Index.lookup_update_ne i k v1 k2 hne⟩
  · exact Index.update_fst_ok _ _ _ _ (Index.lookup_update_self i k v1)
  · exact fun h => Index.update_fst_error i k v1 h

theorem claim6_witness :
    ([2] : List Nat) ≠ [1] ∧
      (Index.new.lookup [1] = .error [1] ∧
      ((Index.new.update [1] ⟨0, 0, 5, 0⟩).2.update [1] ⟨0, 0, 10, 100⟩).2.lookup
          [1] = .ok ⟨0, 0, 10, 100⟩ ∧
      ((Index.new.update [1] ⟨0, 0, 5, 0⟩).2.update [1] ⟨0, 0, 10, 100⟩).1 =
          some ⟨0, 0, 5, 0⟩ ∧
      (Index.new.lookup [1] = .error [1] →
        (Index.new.update [1] ⟨0, 0, 5, 0⟩).1 = none) ∧
      (Index.new.update [1] ⟨0, 0, 5, 0⟩).2.lookup [2] = Index.new.lookup [2]) :=
  ⟨by decide, claim6_index Index.new [1] [2] ⟨0, 0, 5, 0⟩ ⟨0, 0, 10, 100⟩
    (by decide)⟩

/-- Claim C7, counterexample: two records that agree on active, timestamp,
key_size and key but have different values (one the nine zero bytes, the
other the CRC-64/ECMA-182 generator polynomial's bit pattern shifted into
nine bytes) have equal checksums, so checksum equality does not imply that
the six digested fields are bit-identical. -/
theorem claim7_counterexample :
    (⟨0, true, 0, 0, 9, [], List.replicate 9 0⟩ : Entry).calculate_checksum =
      (⟨0, true, 0, 0, 9, [],
        [161, 120, 112, 245, 212, 245, 27, 73, 128]⟩ : Entry).calculate_checksum ∧
    (⟨0, true, 0, 0, 9, [], List.replicate 9 0⟩ : Entry).value ≠
      (⟨0, true, 0, 0, 9, [],
        [161, 120, 112, 245, 212, 245, 27, 73, 128]⟩ : Entry).value := by
  constructor
  · simp [Entry.calculate_checksum, crc64, crc64Byte, crcStep, crcPoly,
      Nat.iterate, toLE, List.replicate]
  · decide

/-- Claim C7, amended: the checksum is computed over exactly the six
fields active, timestamp, key_size, value_size, key, value in that order,
excluding the checksum field itself, so any two records agreeing on those
six fields (their stored checksum fields may differ) have equal computed
checksums; the converse fails (see the counterexample). -/
theorem claim7_checksum_of_fields (e1 e2 : Entry)
    (ha : e1.active = e2.active) (ht : e1.timestamp = e2.timestamp)
    (hks : e1.key_size = e2.key_size) (hvs : e1.value_size = e2.value_size)
    (hkey : e1.key = e2.key) (hval : e1.value = e2.value) :
    e1.calculate_checksum = e2.calculate_checksum := by
  unfold Entry.calculate_checksum
  rw [ha, ht, hks, hvs, hkey, hval]

theorem claim7_witness :
    (⟨5, true, 1, 1, 0, [2], []⟩ : Entry).active =
        (⟨77, true, 1, 1, 0, [2], []⟩ : Entry).active ∧
      (⟨5, true, 1, 1, 0, [2], []⟩ : Entry).calculate_checksum =
        (⟨77, true, 1, 1, 0, [2], []⟩ : Entry).calculate_checksum :=
  ⟨by decide,
    claim7_checksum_of_fields ⟨5, true, 1, 1, 0, [2], []⟩
      ⟨77, true, 1, 1, 0, [2], []⟩ (by decide) (by decide) (by decide)
      (by decide) (by decide) (by decide)⟩

/-- Claim C8: `mark_inactive` sets active to false and leaves checksum,
timestamp, key_size, value_size, key and value unchanged; re-encoding
after `mark_inactive` produces a byte sequence of exactly the same length
as before. -/
theorem claim8_mark_inactive (e : Entry) :
    e.mark_inactive.active = false ∧ e.mark_inactive.checksum = e.checksum ∧
    e.mark_inactive.timestamp = e.timestamp ∧
    e.mark_inactive.key_size = e.key_size ∧
    e.mark_inactive.value_size = e.value_size ∧
    e.mark_inactive.key = e.key ∧ e.mark_inactive.value = e.value ∧
    e.mark_inactive.as_bytes.length = e.as_bytes.length := by
  refine ⟨rfl, rfl, rfl, rfl, rfl, rfl, rfl, ?_⟩
  simp [Entry.as_bytes_length]

/-- Claim C9: for every key absent from the index, `get` fails with the
key-not-found error, reads no file bytes, and leaves the index, file and
cursor unchanged (the returned state is the input state). -/
theorem claim9_missing_key (w : Writer) (k : List Nat)
    (h : w.index.lookup k = .error k) :
    w.get k = (.error (.keyNotFound k), w, 0) := by
  simp only [Writer.get, h]

theorem claim9_witness :
    Writer.new.index.lookup [1] = .error [1] ∧
      Writer.new.get [1] = (.error (.keyNotFound [1]), Writer.new, 0) :=
  ⟨rfl, claim9_missing_key Writer.new [1] rfl⟩

/-- Claim C10: for every well-formed record the encoded byte sequence has
length exactly `41 + key_size + value_size`, and `insert` (either branch)
records in the index a location whose size field equals that encoded
length, where the file at the location's offset holds exactly the encoded
record. -/
theorem claim10_encoded_length (w : Writer) (e : Entry) (now : Nat)
    (hk : e.key_size = e.key.length) (hv : e.value_size = e.value.length) :
    e.as_bytes.length = 41 + e.key_size + e.value_size ∧
    ∃ off : Nat, (w.insert e now).index.lookup e.key =
        .ok ⟨now, 0, off, e.as_bytes.length⟩ ∧
      ((w.insert e now).file.drop off).take e.as_bytes.length = e.as_bytes := by
  constructor
  · rw [Entry.as_bytes_length, hk, hv]
  · cases hl : Index.lookup w.index e.key with
    | error k2 =>
        refine ⟨w.offset, ?_, ?_⟩
        · simp only [Writer.insert, hl]
          simp [Index.lookup_update_self]
        · simp only [Writer.insert, hl]
          simp [writeAt_drop, List.take_left]
    | ok iv =>
        rw [Writer.insert_eq_found _ _ now _ hl]
        refine ⟨(writeAt w.file (iv.offset +
            ((w.file.drop iv.offset).length -
              (from_readerS (w.file.drop iv.offset)).2.length) -
            (from_readerS (w.file.drop iv.offset)).1.mark_inactive.as_bytes.length)
            (from_readerS (w.file.drop iv.offset)).1.mark_inactive.as_bytes).length,
          ?_, ?_⟩
        · simp [Index.lookup_update_self]
        · simp [writeAt_drop, List.take_left]

theorem claim10_witness :
    (Entry.new [1] [2, 3] 4).key_size = (Entry.new [1] [2, 3] 4).key.length ∧
      (Entry.new [1] [2, 3] 4).as_bytes.length =
        41 + (Entry.new [1] [2, 3] 4).key_size +
          (Entry.new [1] [2, 3] 4).value_size ∧
      ∃ off : Nat,
        (Writer.new.insert (Entry.new [1] [2, 3] 4) 9).index.lookup [1] =
            .ok ⟨9, 0, off, (Entry.new [1] [2, 3] 4).as_bytes.length⟩ ∧
          ((Writer.new.insert (Entry.new [1] [2, 3] 4) 9).file.drop off).take
              (Entry.new [1] [2, 3] 4).as_bytes.length =
            (Entry.new [1] [2, 3] 4).as_bytes :=
  ⟨by decide,
    claim10_encoded_length Writer.new (Entry.new [1] [2, 3] 4) 9 (by decide)
      (by decide)⟩

end Bitcask
